import Mathlib

/-!
Verification of the README-extraction script `run-tests.py`.

The script reads `README.md`, takes everything after the first occurrence of
the heading `## Examples` (Python `str.partition`), interpolates that segment
into a fixed Elm module template, writes the result to `src/Examples.elm`,
and finally shells out once via `os.system("cd BASE && elm-doc-test && elm-test")`,
discarding the returned status.

Texts are modelled as `List Char`; the file-system and shell effects are
modelled by an explicit `World` record and a trace of `Event`s.
-/

namespace ElmHour

/-- Bool test: `pat` is a prefix of the second list (char-by-char). -/
def startsWith : List Char → List Char → Bool
  | [], _ => true
  | _ :: _, [] => false
  | p :: ps, c :: cs => if p = c then startsWith ps cs else false

/-- Bool test: `pat` occurs as a contiguous substring (at some suffix start). -/
def occursIn (pat : List Char) : List Char → Bool
  | [] => false
  | c :: rest => startsWith pat (c :: rest) || occursIn pat rest

/-- Number of (possibly overlapping) occurrence positions of `pat`. -/
def countOccur (pat : List Char) : List Char → Nat
  | [] => 0
  | c :: rest => (if startsWith pat (c :: rest) then 1 else 0) + countOccur pat rest

/-- Python `str.partition`: split on the first occurrence of `sep` into
`(before, sep, after)`; when `sep` is absent the result is `(s, "", "")`. -/
def strPartition (sep : List Char) : List Char → List Char × List Char × List Char
  | [] => ([], [], [])
  | c :: rest =>
    if startsWith sep (c :: rest) then ([], sep, (c :: rest).drop sep.length)
    else
      (c :: (strPartition sep rest).1,
       (strPartition sep rest).2.1,
       (strPartition sep rest).2.2)

/-- The literal marker used by the script (line 10 of `run-tests.py`). -/
def marker : List Char := ("## Examples").data

/-- Line 10: `examples = src.partition("## Examples")[-1]`. -/
def examples (s : List Char) : List Char := (strPartition marker s).2.2

/-- The fixed template text before the interpolated `{examples}` in the
`elm_src` f-string (lines 12-17), byte for byte. -/
def elmHeader : List Char :=
  ("\nmodule Examples exposing (..)\n\n\x7b-| AUTO GENERATED -- DO NOT EDIT -\x7d\n\n\x7b-|\n").data

/-- The fixed template text after the interpolated `{examples}` in the
`elm_src` f-string (lines 18-23), byte for byte. -/
def elmFooter : List Char :=
  ("\n-\x7d\ntest : Maybe Never\ntest =\n    Nothing\n").data

/-- Lines 12-23: the generated module text as a function of the interpolated
examples segment. -/
def elm_src (examplesSeg : List Char) : List Char := elmHeader ++ examplesSeg ++ elmFooter

/-- The whole text transformation of the script: README text to module text. -/
def generatedModule (s : List Char) : List Char := elm_src (examples s)

/-- Opening delimiter of an Elm documentation comment. -/
def openPat : List Char := ['\x7b', '-', '|']

/-- Closing delimiter of an Elm block comment. -/
def closePat : List Char := ['-', '\x7d']

/-- Text strictly after the first occurrence of `pat`, if any. -/
def afterPat (pat : List Char) : List Char → Option (List Char)
  | [] => none
  | c :: rest =>
    if startsWith pat (c :: rest) then some ((c :: rest).drop pat.length)
    else afterPat pat rest

/-- Text strictly before the first occurrence of `pat`, if any. -/
def beforePat (pat : List Char) : List Char → Option (List Char)
  | [] => none
  | c :: rest =>
    if startsWith pat (c :: rest) then some []
    else (beforePat pat rest).map (fun t => c :: t)

/-- Observer: the text between the `{-|` opening the second comment block of
a module text and the first `-}` that follows it. -/
def docBlock (m : List Char) : Option (List Char) :=
  (afterPat openPat m).bind fun r1 =>
    (afterPat openPat r1).bind fun r2 => beforePat closePat r2

/-- Index of the first occurrence of `pat`, if any (an independent
formulation of "first occurrence", used to state noninterference). -/
def firstMatchIdx (pat : List Char) : List Char → Option Nat
  | [] => none
  | c :: rest =>
    if startsWith pat (c :: rest) then some 0
    else (firstMatchIdx pat rest).map (fun i => i + 1)

/-- The suffix of `s` strictly after the first occurrence of the marker,
or the empty text when the marker is absent. -/
def firstMarkerSuffix (s : List Char) : List Char :=
  match firstMatchIdx marker s with
  | some i => s.drop (i + marker.length)
  | none => []

/-- Opening delimiter of an Elm block comment. -/
def openBrk : List Char := ['\x7b', '-']

/-- Closing delimiter of an Elm block comment (as a bare pair). -/
def closeBrk : List Char := ['-', '\x7d']

/-- Scan a text left to right tracking the nesting depth of Elm block
comments; `none` signals a closing delimiter at depth zero (a stray `-}`),
otherwise the final depth is returned. -/
def commentScanDepth (d : Nat) : List Char → Option Nat
  | [] => some d
  | [_] => some d
  | c1 :: c2 :: rest =>
    if c1 = '\x7b' ∧ c2 = '-' then commentScanDepth (d + 1) rest
    else if c1 = '-' ∧ c2 = '\x7d' then
      if d = 0 then none else commentScanDepth (d - 1) rest
    else commentScanDepth d (c2 :: rest)

/-- A necessary syntactic condition on an Elm source text: its block-comment
delimiters nest properly and the text ends outside every comment. -/
def elmCommentsBalanced (m : List Char) : Bool := commentScanDepth 0 m == some 0

/-- The last character is not able to start or continue a comment delimiter
pair across a concatenation boundary. -/
def lastSafe : List Char → Bool
  | [] => true
  | [c] => !((c == '\x7b') || (c == '-'))
  | _ :: c2 :: rest => lastSafe (c2 :: rest)

/-- The fixed template text strictly before the interpolated content of the
second comment block: it ends with that block's `{-|` delimiter. -/
def docPre : List Char :=
  ("\nmodule Examples exposing (..)\n\n\x7b-| AUTO GENERATED -- DO NOT EDIT -\x7d\n\n\x7b-|").data

/-- The fixed template text strictly after the interpolated content of the
second comment block: it starts with that block's `-}` delimiter. -/
def docSuf : List Char :=
  ("-\x7d\ntest : Maybe Never\ntest =\n    Nothing\n").data

/-- Bool test: `pat` is a suffix of the second list. -/
def endsWith (pat l : List Char) : Bool := startsWith pat.reverse l.reverse

/-- The trivial placeholder declaration of the template (lines 20-22). -/
def placeholderDecl : List Char := ("test : Maybe Never\ntest =\n    Nothing\n").data

/-- The spec's FileAccessError: the README cannot be read or the output path
cannot be written. -/
inductive ScriptError where
  | fileAccessError : ScriptError
deriving DecidableEq

/-- Observable side effects of one run of the script. -/
inductive Event where
  | writeFile : List Char → List Char → Event
  | runCommand : List Char → Event
deriving DecidableEq

/-- The script's environment: which paths are readable with which content,
which paths are writable, and what exit status the shell reports for a
command line. -/
structure World where
  fileContents : List Char → Option (List Char)
  writable : List Char → Bool
  cmdExit : List Char → Nat

/-- Outcome of one run: the trace of effects and either the error that
terminated the script or the script's own exit status. -/
structure RunOutcome where
  trace : List Event
  result : Except ScriptError Nat

/-- Line 9: `BASE / "README.md"`. -/
def readmePath (base : List Char) : List Char := base ++ ("/README.md").data

/-- Line 24: `BASE / "src" / "Examples.elm"`. -/
def outPath (base : List Char) : List Char := base ++ ("/src/Examples.elm").data

/-- Line 26: the single composed shell command line. -/
def testCmd (base : List Char) : List Char :=
  ("cd ").data ++ base ++ (" && elm-doc-test && elm-test").data

/-- Lines 9-26 of `run-tests.py` as a state-passing function: read the
README (fatal error when unreadable), build the module text, write it
(fatal error when the output path is unwritable), then invoke the single
`os.system` command.  The status `os.system` returns is discarded by the
script, so the script's own exit status on the success path is 0. -/
def runScript (base : List Char) (w : World) : RunOutcome :=
  match w.fileContents (readmePath base) with
  | none => ⟨[], Except.error ScriptError.fileAccessError⟩
  | some s =>
    let m := elm_src (examples s)
    if w.writable (outPath base) then
      ⟨[Event.writeFile (outPath base) m, Event.runCommand (testCmd base)], Except.ok 0⟩
    else
      ⟨[], Except.error ScriptError.fileAccessError⟩

/-- Effect of one event on the file system (commands' external effects are
out of scope: the claims exclude the spawned tools' own behavior). -/
def applyEvent (w : World) : Event → World
  | Event.writeFile p c =>
    { w with fileContents := fun q => if q = p then some c else w.fileContents q }
  | Event.runCommand _ => w

/-- Effect of a whole trace on the world. -/
def applyTrace (w : World) (t : List Event) : World := t.foldl applyEvent w

/-- Content last written at path `p` by a trace, if any. -/
def writtenAt (t : List Event) (p : List Char) : Option (List Char) :=
  t.foldl (fun acc e =>
    match e with
    | Event.writeFile q c => if q = p then some c else acc
    | Event.runCommand _ => acc) none

/-- Bool test for write events. -/
def isWriteEvent : Event → Bool
  | Event.writeFile _ _ => true
  | Event.runCommand _ => false

/-- A family of concrete worlds: the README (relative to base `[]`) has
content `s`, every path is writable, and every shell command reports the
failing exit status 1. -/
def mkWorld (s : List Char) : World where
  fileContents := fun p => if p = readmePath [] then some s else none
  writable := fun _ => true
  cmdExit := fun _ => 1

/-- Like `mkWorld`, but no path is writable (e.g. the output path's parent
directory does not exist). -/
def mkWorldRO (s : List Char) : World where
  fileContents := fun p => if p = readmePath [] then some s else none
  writable := fun _ => false
  cmdExit := fun _ => 1

/-- Concrete README for the C1 counterexample: one marker occurrence. -/
def c1src : List Char := ("intro## Examplestail").data

/-- Concrete README for the C3 counterexample: the text after the marker
contains a comment-closing delimiter. -/
def c3src : List Char := ("## Examples -\x7d").data

/-- Concrete README of the spec's C4 scenario. -/
def c4src : List Char := ("intro text\n## Examples\nfoo bar\n").data

/-- The extracted segment of the spec's C4 scenario. -/
def c4seg : List Char := ("\nfoo bar\n").data

/-- The part of the template header that follows its first `{-|`. -/
def hdrRest : List Char := (" AUTO GENERATED -- DO NOT EDIT -\x7d\n\n\x7b-|\n").data

/-! ### Helper lemmas about prefixes, occurrences and the extraction scans -/

theorem startsWith_self_append (p t : List Char) : startsWith p (p ++ t) = true := by
  induction p with
  | nil => rfl
  | cons a ps ih => simp [startsWith, ih]

theorem startsWith_length_le : ∀ (p x : List Char), startsWith p x = true → p.length ≤ x.length
  | [], _, _ => by simp
  | _ :: _, [], h => by simp [startsWith] at h
  | a :: ps, c :: cs, h => by
    by_cases hac : a = c
    · simp only [startsWith] at h
      rw [if_pos hac] at h
      have := startsWith_length_le ps cs h
      simp [List.length_cons]
      omega
    · simp only [startsWith] at h
      rw [if_neg hac] at h
      exact absurd h (by simp)

theorem startsWith_exists_append : ∀ (p x : List Char), startsWith p x = true →
    ∃ s, x = p ++ s
  | [], x, _ => ⟨x, rfl⟩
  | _ :: _, [], h => by simp [startsWith] at h
  | a :: ps, c :: cs, h => by
    by_cases hac : a = c
    · simp only [startsWith] at h
      rw [if_pos hac] at h
      obtain ⟨s, hs⟩ := startsWith_exists_append ps cs h
      exact ⟨s, by simp [← hac, hs]⟩
    · simp only [startsWith] at h
      rw [if_neg hac] at h
      exact absurd h (by simp)

theorem startsWith_append_right : ∀ (p x y : List Char), p.length ≤ x.length →
    startsWith p (x ++ y) = startsWith p x
  | [], _, _, _ => rfl
  | _ :: _, [], _, h => by simp at h
  | a :: ps, c :: cs, y, h => by
    simp only [List.cons_append, startsWith]
    by_cases hac : a = c
    · rw [if_pos hac, if_pos hac]
      exact startsWith_append_right ps cs y (by simp [List.length_cons] at h; omega)
    · rw [if_neg hac, if_neg hac]

theorem drop_len_append (l₁ l₂ : List Char) : (l₁ ++ l₂).drop l₁.length = l₂ := by
  induction l₁ with
  | nil => rfl
  | cons a l ih =>
    simp only [List.cons_append, List.length_cons, List.drop_succ_cons]
    exact ih

theorem drop_append_le : ∀ (n : Nat) (x y : List Char), n ≤ x.length →
    (x ++ y).drop n = x.drop n ++ y
  | 0, _, _, _ => rfl
  | _ + 1, [], _, h => by simp at h
  | n + 1, c :: cs, y, h => by
    simpa using drop_append_le n cs y (by simp [List.length_cons] at h; omega)

theorem afterPat_some_decomp : ∀ (pat l t : List Char), afterPat pat l = some t →
    ∃ pre, l = pre ++ pat ++ t
  | _, [], _, h => by simp [afterPat] at h
  | pat, c :: rest, t, h => by
    by_cases hs : startsWith pat (c :: rest) = true
    · simp only [afterPat] at h
      rw [if_pos hs] at h
      simp only [Option.some.injEq] at h
      obtain ⟨s, hsplit⟩ := startsWith_exists_append pat (c :: rest) hs
      refine ⟨[], ?_⟩
      have hts : t = s := by
        rw [← h, hsplit, drop_len_append]
      rw [List.nil_append, hsplit, hts]
    · simp only [afterPat] at h
      rw [if_neg hs] at h
      obtain ⟨pre, hpre⟩ := afterPat_some_decomp pat rest t h
      exact ⟨c :: pre, by simp [hpre]⟩

theorem afterPat_length_le (pat l t : List Char) (h : afterPat pat l = some t) :
    pat.length ≤ l.length := by
  obtain ⟨pre, hpre⟩ := afterPat_some_decomp pat l t h
  rw [hpre]
  simp [List.length_append]
  omega

theorem afterPat_append : ∀ (pat l r t : List Char), afterPat pat l = some t →
    afterPat pat (l ++ r) = some (t ++ r)
  | _, [], _, _, h => by simp [afterPat] at h
  | pat, c :: rest, r, t, h => by
    by_cases hs : startsWith pat (c :: rest) = true
    · have hle := startsWith_length_le pat (c :: rest) hs
      simp only [afterPat] at h
      rw [if_pos hs] at h
      simp only [Option.some.injEq] at h
      have hsw : startsWith pat (c :: (rest ++ r)) = true := by
        have := startsWith_append_right pat (c :: rest) r hle
        rw [List.cons_append] at this
        rw [this]
        exact hs
      show (if startsWith pat (c :: (rest ++ r)) = true
            then some ((c :: (rest ++ r)).drop pat.length)
            else afterPat pat (rest ++ r)) = some (t ++ r)
      rw [if_pos hsw, ← List.cons_append, drop_append_le pat.length (c :: rest) r hle, h]
    · simp only [afterPat] at h
      rw [if_neg hs] at h
      have hle : pat.length ≤ rest.length := afterPat_length_le pat rest t h
      have hsw : ¬ startsWith pat (c :: (rest ++ r)) = true := by
        have := startsWith_append_right pat (c :: rest) r (by simp [List.length_cons]; omega)
        rw [List.cons_append] at this
        rw [this]
        exact hs
      show (if startsWith pat (c :: (rest ++ r)) = true
            then some ((c :: (rest ++ r)).drop pat.length)
            else afterPat pat (rest ++ r)) = some (t ++ r)
      rw [if_neg hsw]
      exact afterPat_append pat rest r t h

theorem startsWith_head_ne (p : Char) (ps : List Char) (c : Char) (hc : p ≠ c)
    (X : List Char) : startsWith (p :: ps) (c :: X) = false := by
  cases X <;> simp [startsWith, hc]

theorem startsWith_pair_ne_second (p q c d : Char) (hd : q ≠ d) (X : List Char) :
    startsWith [p, q] (c :: d :: X) = false := by
  by_cases hp : p = c <;> simp [startsWith, hp, hd]

theorem startsWith_pair_tail (p q c d : Char) (X Y : List Char) :
    startsWith [p, q] (c :: d :: X) = startsWith [p, q] (c :: d :: Y) := by
  by_cases hp : p = c <;> by_cases hq : q = d <;> simp [startsWith, hp, hq]

theorem occursIn_cons_false (pat c rest) (h : occursIn pat (c :: rest) = false) :
    startsWith pat (c :: rest) = false ∧ occursIn pat rest = false := by
  have h' : (startsWith pat (c :: rest) || occursIn pat rest) = false := h
  simpa [Bool.or_eq_false_iff] using h'

theorem beforePat_close_append : ∀ (b t : List Char), occursIn closePat b = false →
    beforePat closePat (b ++ '\n' :: t)
      = (beforePat closePat ('\n' :: t)).map (fun u => b ++ u)
  | [], t, _ => by
    cases hb : beforePat closePat ('\n' :: t) <;> simp [hb]
  | [c], t, _ => by
    have h1 : startsWith closePat (c :: '\n' :: t) = false := by
      simp only [closePat]
      exact startsWith_pair_ne_second '-' '\x7d' c '\n' (by decide) t
    show (if startsWith closePat (c :: '\n' :: t) = true then some []
          else (beforePat closePat ('\n' :: t)).map (fun u => c :: u))
        = (beforePat closePat ('\n' :: t)).map (fun u => [c] ++ u)
    rw [if_neg (by simp [h1])]
    rfl
  | c :: d :: b', t, h => by
    obtain ⟨hsw, htl⟩ := occursIn_cons_false closePat c (d :: b') h
    have hsw' : startsWith closePat (c :: d :: (b' ++ '\n' :: t)) = false := by
      simp only [closePat] at hsw ⊢
      rw [startsWith_pair_tail '-' '\x7d' c d (b' ++ '\n' :: t) b']
      exact hsw
    show (if startsWith closePat (c :: ((d :: b') ++ '\n' :: t)) = true then some []
          else (beforePat closePat ((d :: b') ++ '\n' :: t)).map (fun u => c :: u))
        = (beforePat closePat ('\n' :: t)).map (fun u => (c :: d :: b') ++ u)
    rw [if_neg (by simp [hsw']), beforePat_close_append (d :: b') t htl]
    cases hb : beforePat closePat ('\n' :: t) <;> simp [hb]

theorem docBlock_elm (seg : List Char) (hseg : occursIn closePat seg = false) :
    docBlock (elm_src seg) = some ('\n' :: (seg ++ ['\n'])) := by
  have e1 : afterPat openPat elmHeader = some hdrRest := by decide
  have e2 : afterPat openPat hdrRest = some ['\n'] := by decide
  have hA : afterPat openPat (elm_src seg) = some (hdrRest ++ (seg ++ elmFooter)) := by
    have h := afterPat_append openPat elmHeader (seg ++ elmFooter) hdrRest e1
    rw [show elm_src seg = elmHeader ++ (seg ++ elmFooter) by
      simp [elm_src, List.append_assoc]]
    exact h
  have hB : afterPat openPat (hdrRest ++ (seg ++ elmFooter))
      = some (['\n'] ++ (seg ++ elmFooter)) :=
    afterPat_append openPat hdrRest (seg ++ elmFooter) ['\n'] e2
  have hfoot : elmFooter = '\n' :: docSuf := by decide
  have hC : beforePat closePat ('\n' :: (seg ++ elmFooter))
      = some ('\n' :: (seg ++ ['\n'])) := by
    rw [hfoot]
    have hhead : startsWith closePat ('\n' :: (seg ++ '\n' :: docSuf)) = false := by
      simp only [closePat]
      exact startsWith_head_ne '-' ['\x7d'] '\n' (by decide) _
    show (if startsWith closePat ('\n' :: (seg ++ '\n' :: docSuf)) = true then some []
          else (beforePat closePat (seg ++ '\n' :: docSuf)).map (fun u => '\n' :: u))
        = some ('\n' :: (seg ++ ['\n']))
    rw [if_neg (by simp [hhead]), beforePat_close_append seg docSuf hseg]
    have hd : beforePat closePat ('\n' :: docSuf) = some ['\n'] := by decide
    rw [hd]
    rfl
  simp only [docBlock]
  rw [hA, Option.some_bind, hB, Option.some_bind, List.singleton_append, hC]

theorem strPartition_no_occur : ∀ (pat s : List Char), occursIn pat s = false →
    strPartition pat s = (s, [], [])
  | _, [], _ => rfl
  | pat, c :: rest, h => by
    obtain ⟨h1, h2⟩ := occursIn_cons_false pat c rest h
    simp only [strPartition]
    rw [if_neg (by simp [h1]), strPartition_no_occur pat rest h2]

theorem examples_no_marker (s : List Char) (h : occursIn marker s = false) :
    examples s = [] := by
  rw [examples, strPartition_no_occur marker s h]

theorem countOccur_embed_ge (pat : List Char) (hp : pat ≠ []) : ∀ (a b : List Char),
    1 ≤ countOccur pat (a ++ pat ++ b)
  | [], b => by
    cases pat with
    | nil => exact absurd rfl hp
    | cons p ps =>
      have hs : startsWith (p :: ps) (p :: (ps ++ b)) = true := by
        have := startsWith_self_append (p :: ps) b
        rwa [List.cons_append] at this
      show 1 ≤ (if startsWith (p :: ps) (p :: (ps ++ b)) = true then 1 else 0)
          + countOccur (p :: ps) (ps ++ b)
      rw [if_pos hs]
      omega
  | c :: a', b => by
    show 1 ≤ (if startsWith pat (c :: (a' ++ pat ++ b)) = true then 1 else 0)
        + countOccur pat (a' ++ pat ++ b)
    have h := countOccur_embed_ge pat hp a' b
    exact le_trans h (Nat.le_add_left _ _)

theorem strPartition_count_one (pat : List Char) (hp : pat ≠ []) : ∀ (a b : List Char),
    countOccur pat (a ++ pat ++ b) = 1 → strPartition pat (a ++ pat ++ b) = (a, pat, b)
  | [], b, _ => by
    cases pat with
    | nil => exact absurd rfl hp
    | cons p ps =>
      have hs : startsWith (p :: ps) (p :: (ps ++ b)) = true := by
        have := startsWith_self_append (p :: ps) b
        rwa [List.cons_append] at this
      show (if startsWith (p :: ps) (p :: (ps ++ b)) = true
            then ([], p :: ps, (p :: (ps ++ b)).drop (p :: ps).length)
            else (p :: (strPartition (p :: ps) (ps ++ b)).1,
                  (strPartition (p :: ps) (ps ++ b)).2.1,
                  (strPartition (p :: ps) (ps ++ b)).2.2)) = ([], p :: ps, b)
      rw [if_pos hs, ← List.cons_append, drop_len_append]
  | c :: a', b, h => by
    have h' : (if startsWith pat (c :: (a' ++ pat ++ b)) = true then 1 else 0)
        + countOccur pat (a' ++ pat ++ b) = 1 := h
    have hone := countOccur_embed_ge pat hp a' b
    have hsw : ¬ startsWith pat (c :: (a' ++ pat ++ b)) = true := by
      intro hc
      rw [if_pos hc] at h'
      omega
    rw [if_neg hsw] at h'
    have hcount : countOccur pat (a' ++ pat ++ b) = 1 := by omega
    have ih := strPartition_count_one pat hp a' b hcount
    show (if startsWith pat (c :: (a' ++ pat ++ b)) = true
          then ([], pat, (c :: (a' ++ pat ++ b)).drop pat.length)
          else (c :: (strPartition pat (a' ++ pat ++ b)).1,
                (strPartition pat (a' ++ pat ++ b)).2.1,
                (strPartition pat (a' ++ pat ++ b)).2.2)) = (c :: a', pat, b)
    rw [if_neg hsw, ih]

theorem examples_of_count_one (a b : List Char)
    (h : countOccur marker (a ++ marker ++ b) = 1) :
    examples (a ++ marker ++ b) = b := by
  rw [examples, strPartition_count_one marker (by decide) a b h]

theorem examples_eq_firstMarkerSuffix : ∀ (s : List Char),
    examples s = firstMarkerSuffix s
  | [] => rfl
  | c :: rest => by
    by_cases hs : startsWith marker (c :: rest) = true
    · simp [examples, firstMarkerSuffix, firstMatchIdx, strPartition, hs]
    · have hs' : startsWith marker (c :: rest) = false := by simpa using hs
      have ih := examples_eq_firstMarkerSuffix rest
      have hL : examples (c :: rest) = examples rest := by
        simp [examples, strPartition, hs']
      cases hidx : firstMatchIdx marker rest with
      | none =>
        have hR : firstMarkerSuffix (c :: rest) = [] := by
          simp [firstMarkerSuffix, firstMatchIdx, hs', hidx]
        rw [hL, hR, ih]
        simp [firstMarkerSuffix, hidx]
      | some i =>
        have hR : firstMarkerSuffix (c :: rest) = rest.drop (i + marker.length) := by
          simp [firstMarkerSuffix, firstMatchIdx, hs', hidx]
          rw [show i + 1 + marker.length = (i + marker.length) + 1 by omega,
            List.drop_succ_cons]
        rw [hL, ih, hR]
        simp [firstMarkerSuffix, hidx]

theorem startsWith_pair_iff (p q c d : Char) (X : List Char) :
    startsWith [p, q] (c :: d :: X) = true ↔ (p = c ∧ q = d) := by
  by_cases hp : p = c <;> by_cases hq : q = d <;> simp [startsWith, hp, hq]

theorem commentScan_append : ∀ (x : List Char) (d d' : Nat) (y : List Char),
    commentScanDepth d x = some d' → lastSafe x = true →
    commentScanDepth d (x ++ y) = commentScanDepth d' y
  | [], d, d', y, hx, _ => by
    have hd : d = d' := by simpa [commentScanDepth] using hx
    rw [List.nil_append, hd]
  | [c], d, d', y, hx, hsafe => by
    have hd : d = d' := by simpa [commentScanDepth] using hx
    subst hd
    cases y with
    | nil => simp [commentScanDepth]
    | cons y1 ys =>
      have hsafe' : ¬ c = '\x7b' ∧ ¬ c = '-' := by simpa [lastSafe] using hsafe
      show (if c = '\x7b' ∧ y1 = '-' then commentScanDepth (d + 1) ys
            else if c = '-' ∧ y1 = '\x7d' then
              if d = 0 then none else commentScanDepth (d - 1) ys
            else commentScanDepth d (y1 :: ys)) = commentScanDepth d (y1 :: ys)
      rw [if_neg (fun hh => hsafe'.1 hh.1), if_neg (fun hh => hsafe'.2 hh.1)]
  | c1 :: c2 :: x', d, d', y, hx, hsafe => by
    by_cases h1 : c1 = '\x7b' ∧ c2 = '-'
    · simp only [commentScanDepth] at hx
      rw [if_pos h1] at hx
      show commentScanDepth d ((c1 :: c2 :: x') ++ y) = commentScanDepth d' y
      rw [List.cons_append, List.cons_append]
      simp only [commentScanDepth]
      rw [if_pos h1]
      cases x' with
      | nil =>
        exfalso
        have hs2 : lastSafe [c2] = true := hsafe
        rw [h1.2] at hs2
        simp [lastSafe] at hs2
      | cons c3 x'' =>
        have hsafe' : lastSafe (c3 :: x'') = true := hsafe
        exact commentScan_append (c3 :: x'') (d + 1) d' y hx hsafe'
    · by_cases h2 : c1 = '-' ∧ c2 = '\x7d'
      · simp only [commentScanDepth] at hx
        rw [if_neg h1, if_pos h2] at hx
        by_cases hd : d = 0
        · rw [if_pos hd] at hx
          exact Option.noConfusion hx
        · rw [if_neg hd] at hx
          show commentScanDepth d ((c1 :: c2 :: x') ++ y) = commentScanDepth d' y
          rw [List.cons_append, List.cons_append]
          simp only [commentScanDepth]
          rw [if_neg h1, if_pos h2, if_neg hd]
          cases x' with
          | nil =>
            have he : d - 1 = d' := by simpa [commentScanDepth] using hx
            rw [List.nil_append, he]
          | cons c3 x'' =>
            have hsafe' : lastSafe (c3 :: x'') = true := hsafe
            exact commentScan_append (c3 :: x'') (d - 1) d' y hx hsafe'
      · simp only [commentScanDepth] at hx
        rw [if_neg h1, if_neg h2] at hx
        show commentScanDepth d ((c1 :: c2 :: x') ++ y) = commentScanDepth d' y
        rw [List.cons_append, List.cons_append]
        simp only [commentScanDepth]
        rw [if_neg h1, if_neg h2, ← List.cons_append]
        have hsafe' : lastSafe (c2 :: x') = true := hsafe
        exact commentScan_append (c2 :: x') d d' y hx hsafe'

theorem commentScan_skip : ∀ (seg : List Char) (d : Nat) (t : List Char),
    occursIn openBrk seg = false → occursIn closeBrk seg = false →
    commentScanDepth d (seg ++ '\n' :: t) = commentScanDepth d ('\n' :: t)
  | [], _, _, _, _ => rfl
  | [c], d, t, _, _ => by
    show (if c = '\x7b' ∧ '\n' = '-' then commentScanDepth (d + 1) t
          else if c = '-' ∧ '\n' = '\x7d' then
            if d = 0 then none else commentScanDepth (d - 1) t
          else commentScanDepth d ('\n' :: t)) = commentScanDepth d ('\n' :: t)
    rw [if_neg (fun hh => absurd hh.2 (by decide)),
      if_neg (fun hh => absurd hh.2 (by decide))]
  | c1 :: c2 :: seg', d, t, h1, h2 => by
    obtain ⟨h1a, h1b⟩ := occursIn_cons_false openBrk c1 (c2 :: seg') h1
    obtain ⟨h2a, h2b⟩ := occursIn_cons_false closeBrk c1 (c2 :: seg') h2
    have hno1 : ¬(c1 = '\x7b' ∧ c2 = '-') := by
      intro hh
      have ht := (startsWith_pair_iff '\x7b' '-' c1 c2 seg').mpr ⟨hh.1.symm, hh.2.symm⟩
      simp only [openBrk] at h1a
      rw [ht] at h1a
      exact Bool.noConfusion h1a
    have hno2 : ¬(c1 = '-' ∧ c2 = '\x7d') := by
      intro hh
      have ht := (startsWith_pair_iff '-' '\x7d' c1 c2 seg').mpr ⟨hh.1.symm, hh.2.symm⟩
      simp only [closeBrk] at h2a
      rw [ht] at h2a
      exact Bool.noConfusion h2a
    show (if c1 = '\x7b' ∧ c2 = '-' then commentScanDepth (d + 1) (seg' ++ '\n' :: t)
          else if c1 = '-' ∧ c2 = '\x7d' then
            if d = 0 then none else commentScanDepth (d - 1) (seg' ++ '\n' :: t)
          else commentScanDepth d (c2 :: (seg' ++ '\n' :: t)))
        = commentScanDepth d ('\n' :: t)
    rw [if_neg hno1, if_neg hno2, ← List.cons_append]
    exact commentScan_skip (c2 :: seg') d t h1b h2b

theorem elmCommentsBalanced_elm (seg : List Char)
    (h1 : occursIn openBrk seg = false) (h2 : occursIn closeBrk seg = false) :
    elmCommentsBalanced (elm_src seg) = true := by
  have hhead : commentScanDepth 0 elmHeader = some 1 := by decide
  have hsafe : lastSafe elmHeader = true := by decide
  have hfoot : elmFooter = '\n' :: docSuf := by decide
  have hstep1 : commentScanDepth 0 (elmHeader ++ (seg ++ elmFooter))
      = commentScanDepth 1 (seg ++ elmFooter) :=
    commentScan_append elmHeader 0 1 (seg ++ elmFooter) hhead hsafe
  have hstep2 : commentScanDepth 1 (seg ++ elmFooter) = commentScanDepth 1 ('\n' :: docSuf) := by
    rw [hfoot]
    exact commentScan_skip seg 1 docSuf h1 h2
  have hlast : commentScanDepth 1 ('\n' :: docSuf) = some 0 := by decide
  rw [elmCommentsBalanced, show elm_src seg = elmHeader ++ (seg ++ elmFooter) by
    simp [elm_src, List.append_assoc]]
  rw [hstep1, hstep2, hlast]
  rfl

theorem occursIn_append_of_right : ∀ (pat x y : List Char), occursIn pat y = true →
    occursIn pat (x ++ y) = true
  | _, [], _, h => h
  | pat, c :: x', y, h => by
    have ih := occursIn_append_of_right pat x' y h
    have hu : occursIn pat (c :: (x' ++ y))
        = (startsWith pat (c :: (x' ++ y)) || occursIn pat (x' ++ y)) := rfl
    rw [List.cons_append, hu, ih, Bool.or_true]

theorem outPath_ne_readmePath (base : List Char) : outPath base ≠ readmePath base := by
  intro h
  have hlen := congrArg List.length h
  simp only [outPath, readmePath, List.length_append] at hlen
  have h1 : (("/src/Examples.elm").data).length = 17 := by decide
  have h2 : (("/README.md").data).length = 10 := by decide
  rw [h1, h2] at hlen
  omega

theorem runScript_ok (base : List Char) (w : World) (s : List Char)
    (hr : w.fileContents (readmePath base) = some s)
    (hw : w.writable (outPath base) = true) :
    runScript base w
      = ⟨[Event.writeFile (outPath base) (elm_src (examples s)),
          Event.runCommand (testCmd base)], Except.ok 0⟩ := by
  simp only [runScript]
  rw [hr]
  show (if w.writable (outPath base) = true
        then RunOutcome.mk
          [Event.writeFile (outPath base) (elm_src (examples s)),
           Event.runCommand (testCmd base)] (Except.ok 0)
        else RunOutcome.mk [] (Except.error ScriptError.fileAccessError))
      = RunOutcome.mk
          [Event.writeFile (outPath base) (elm_src (examples s)),
           Event.runCommand (testCmd base)] (Except.ok 0)
  rw [if_pos hw]

theorem runScript_noWrite (base : List Char) (w : World) (s : List Char)
    (hr : w.fileContents (readmePath base) = some s)
    (hw : w.writable (outPath base) = false) :
    runScript base w = ⟨[], Except.error ScriptError.fileAccessError⟩ := by
  simp only [runScript]
  rw [hr]
  show (if w.writable (outPath base) = true
        then RunOutcome.mk
          [Event.writeFile (outPath base) (elm_src (examples s)),
           Event.runCommand (testCmd base)] (Except.ok 0)
        else RunOutcome.mk [] (Except.error ScriptError.fileAccessError))
      = RunOutcome.mk [] (Except.error ScriptError.fileAccessError)
  rw [if_neg (by simp [hw])]

/-! ### The claims -/

/-- C1, counterexample: for the README `"intro## Examplestail"`, which contains
the marker exactly once, the content between the second comment block's
delimiters is NOT the text following the marker (`"tail"`): the template adds
a newline on each side. -/
theorem claim1_counterexample :
    countOccur marker c1src = 1 ∧
    examples c1src = ("tail").data ∧
    docBlock (generatedModule c1src) ≠ some (("tail").data) := by decide

/-- C1, amended: for a README of the form `a ++ marker ++ b` containing the
marker exactly once, the extracted segment is exactly `b`, and the content
between the second comment block's delimiters is `b` with one newline
prepended and one appended (provided `b` itself contains no `-}`, which
would close the comment block early). -/
theorem claim1_amended (a b : List Char)
    (h1 : countOccur marker (a ++ marker ++ b) = 1)
    (h2 : occursIn closePat b = false) :
    examples (a ++ marker ++ b) = b ∧
    docBlock (generatedModule (a ++ marker ++ b)) = some ('\n' :: (b ++ ['\n'])) := by
  have he := examples_of_count_one a b h1
  refine ⟨he, ?_⟩
  rw [generatedModule, he]
  exact docBlock_elm b h2

/-- C1, witness: the amended claim at the concrete split
`"intro " ++ marker ++ " tail"`. -/
theorem claim1_witness :
    countOccur marker (("intro ").data ++ marker ++ (" tail").data) = 1 ∧
    occursIn closePat ((" tail").data) = false ∧
    (examples (("intro ").data ++ marker ++ (" tail").data) = (" tail").data ∧
     docBlock (generatedModule (("intro ").data ++ marker ++ (" tail").data))
       = some ('\n' :: ((" tail").data ++ ['\n']))) :=
  ⟨by decide, by decide,
   claim1_amended (("intro ").data) ((" tail").data) (by decide) (by decide)⟩

/-- C2, counterexample: for the marker-free README `"no marker here"` the
extracted segment is empty, but the content between the second comment
block's delimiters is not empty (it is the template's two newlines). -/
theorem claim2_counterexample :
    occursIn marker (("no marker here").data) = false ∧
    examples (("no marker here").data) = [] ∧
    docBlock (generatedModule (("no marker here").data)) ≠ some [] := by decide

/-- C2, amended: for every marker-free README the extracted segment is the
empty string, the content between the second comment block's delimiters is
exactly the template's two newline characters (no README-derived content),
and the run does not fail because of the marker's absence: it still writes
and exits with status 0. -/
theorem claim2_amended (s base : List Char) (w : World)
    (hm : occursIn marker s = false)
    (hr : w.fileContents (readmePath base) = some s)
    (hw : w.writable (outPath base) = true) :
    examples s = [] ∧
    docBlock (generatedModule s) = some ['\n', '\n'] ∧
    (runScript base w).result = Except.ok 0 := by
  have he := examples_no_marker s hm
  refine ⟨he, ?_, ?_⟩
  · rw [generatedModule, he]
    simpa using docBlock_elm [] (by decide)
  · rw [runScript_ok base w s hr hw]

/-- C2, witness: the amended claim at the concrete README `"no marker here"`
in a world where that README is readable and the output path writable. -/
theorem claim2_witness :
    occursIn marker (("no marker here").data) = false ∧
    (mkWorld (("no marker here").data)).fileContents (readmePath [])
      = some (("no marker here").data) ∧
    (mkWorld (("no marker here").data)).writable (outPath []) = true ∧
    (examples (("no marker here").data) = [] ∧
     docBlock (generatedModule (("no marker here").data)) = some ['\n', '\n'] ∧
     (runScript [] (mkWorld (("no marker here").data))).result = Except.ok 0) :=
  ⟨by decide, rfl, rfl,
   claim2_amended (("no marker here").data) [] (mkWorld (("no marker here").data))
     (by decide) rfl rfl⟩

/-- C3, counterexample: for the README `"## Examples -}"` the extracted
segment contains the comment-closing delimiter, and the generated module's
comment delimiters do not nest properly (a stray `-}` reaches depth zero),
so the module is not syntactically well-formed. -/
theorem claim3_counterexample :
    occursIn closeBrk (examples c3src) = true ∧
    elmCommentsBalanced (generatedModule c3src) = false := by decide

/-- C3, amended: the fixed header, footer and placeholder declaration are
unaffected by the segment's content (the module is always exactly
header ++ segment ++ footer, and the placeholder declaration occurs in it),
and the module's comment-delimiter structure is well-formed provided the
segment contains neither `{-` nor `-}`. -/
theorem claim3_amended (s : List Char)
    (h1 : occursIn openBrk (examples s) = false)
    (h2 : occursIn closeBrk (examples s) = false) :
    elmCommentsBalanced (generatedModule s) = true ∧
    generatedModule s = elmHeader ++ examples s ++ elmFooter ∧
    occursIn placeholderDecl (generatedModule s) = true := by
  refine ⟨elmCommentsBalanced_elm (examples s) h1 h2, rfl, ?_⟩
  rw [show generatedModule s = elmHeader ++ (examples s ++ elmFooter) by
    simp [generatedModule, elm_src, List.append_assoc]]
  exact occursIn_append_of_right placeholderDecl elmHeader _
    (occursIn_append_of_right placeholderDecl (examples s) elmFooter (by decide))

/-- C3, witness: the amended claim at the concrete README `"## Examples\nfoo"`. -/
theorem claim3_witness :
    occursIn openBrk (examples (("## Examples\nfoo").data)) = false ∧
    occursIn closeBrk (examples (("## Examples\nfoo").data)) = false ∧
    (elmCommentsBalanced (generatedModule (("## Examples\nfoo").data)) = true ∧
     generatedModule (("## Examples\nfoo").data)
       = elmHeader ++ examples (("## Examples\nfoo").data) ++ elmFooter ∧
     occursIn placeholderDecl (generatedModule (("## Examples\nfoo").data)) = true) :=
  ⟨by decide, by decide, claim3_amended (("## Examples\nfoo").data) (by decide) (by decide)⟩

/-- C4: for the spec's scenario README `"intro text\n## Examples\nfoo bar\n"`,
the extracted segment is `"\nfoo bar\n"`, and the content between the second
comment block's delimiters is that segment surrounded by the template's two
newlines, so it contains the segment verbatim. -/
theorem claim4 :
    examples c4src = c4seg ∧
    docBlock (generatedModule c4src) = some ('\n' :: (c4seg ++ ['\n'])) ∧
    occursIn c4seg ('\n' :: (c4seg ++ ['\n'])) = true := by decide

/-- C5: the written module content is a deterministic function of the README
text alone (any two worlds exposing the same README content get the same
written content), and running the script a second time on the world produced
by the first run writes byte-identical content. -/
theorem claim5 (base : List Char) (w w' : World) (s : List Char)
    (hr : w.fileContents (readmePath base) = some s)
    (hw : w.writable (outPath base) = true)
    (hr' : w'.fileContents (readmePath base) = some s)
    (hw' : w'.writable (outPath base) = true) :
    writtenAt (runScript base w).trace (outPath base) = some (generatedModule s) ∧
    writtenAt (runScript base w').trace (outPath base)
      = writtenAt (runScript base w).trace (outPath base) ∧
    writtenAt (runScript base (applyTrace w (runScript base w).trace)).trace (outPath base)
      = writtenAt (runScript base w).trace (outPath base) := by
  have h1 := runScript_ok base w s hr hw
  have h2 := runScript_ok base w' s hr' hw'
  have hread2 : (applyTrace w (runScript base w).trace).fileContents (readmePath base)
      = some s := by
    rw [h1]
    simp only [applyTrace, List.foldl, applyEvent]
    rw [if_neg (fun hh => (outPath_ne_readmePath base) hh.symm)]
    exact hr
  have hwrit2 : (applyTrace w (runScript base w).trace).writable (outPath base) = true := by
    rw [h1]
    simp only [applyTrace, List.foldl, applyEvent]
    exact hw
  have h3 := runScript_ok base (applyTrace w (runScript base w).trace) s hread2 hwrit2
  rw [h3, h1, h2]
  refine ⟨?_, rfl, rfl⟩
  simp [writtenAt, generatedModule]

/-- C5, witness: the determinism and second-run facts at the concrete empty
README in the concrete world `mkWorld []`. -/
theorem claim5_witness :
    (mkWorld []).fileContents (readmePath []) = some [] ∧
    (mkWorld []).writable (outPath []) = true ∧
    (writtenAt (runScript [] (mkWorld [])).trace (outPath [])
       = some (generatedModule []) ∧
     writtenAt (runScript [] (mkWorld [])).trace (outPath [])
       = writtenAt (runScript [] (mkWorld [])).trace (outPath []) ∧
     writtenAt (runScript []
         (applyTrace (mkWorld []) (runScript [] (mkWorld [])).trace)).trace (outPath [])
       = writtenAt (runScript [] (mkWorld [])).trace (outPath [])) :=
  ⟨rfl, rfl, claim5 [] (mkWorld []) (mkWorld []) [] rfl rfl rfl rfl⟩

/-- C6, counterexample: in a world where the shell invocation wrapping
`elm-doc-test && elm-test` reports the failing status 1, the script still
finishes with exit status 0 — `os.system`'s return value is discarded, so
the invocation's failing status is NOT reflected in the script's exit
status. -/
theorem claim6_counterexample :
    (mkWorld []).cmdExit (testCmd []) = 1 ∧
    (runScript [] (mkWorld [])).result = Except.ok 0 ∧
    (runScript [] (mkWorld [])).result
      ≠ Except.ok ((mkWorld []).cmdExit (testCmd [])) := by
  refine ⟨rfl, rfl, ?_⟩
  intro h
  have h' : (Except.ok 0 : Except ScriptError Nat) = Except.ok 1 := h
  simp at h'

/-- C6, amended: the script wraps both external tools in one shell
invocation (`cd BASE && elm-doc-test && elm-test`) and discards the status
that invocation reports: whenever the read and the write succeed, the
command is invoked and the script's own exit status is 0 regardless of the
reported status. -/
theorem claim6_amended (base : List Char) (w : World) (s : List Char)
    (hr : w.fileContents (readmePath base) = some s)
    (hw : w.writable (outPath base) = true) :
    (runScript base w).result = Except.ok 0 ∧
    Event.runCommand (testCmd base) ∈ (runScript base w).trace := by
  rw [runScript_ok base w s hr hw]
  exact ⟨rfl, by simp⟩

/-- C6, witness: the amended claim in the concrete world `mkWorld []`. -/
theorem claim6_witness :
    (mkWorld []).fileContents (readmePath []) = some [] ∧
    (mkWorld []).writable (outPath []) = true ∧
    ((runScript [] (mkWorld [])).result = Except.ok 0 ∧
     Event.runCommand (testCmd []) ∈ (runScript [] (mkWorld [])).trace) :=
  ⟨rfl, rfl, claim6_amended [] (mkWorld []) [] rfl rfl⟩

/-- C7: when the README is readable but the output path is not writable
(e.g. its parent directory does not exist), the run terminates with the
FileAccessError from the write step and no external command is invoked. -/
theorem claim7 (base : List Char) (w : World) (s : List Char)
    (hr : w.fileContents (readmePath base) = some s)
    (hw : w.writable (outPath base) = false) :
    (runScript base w).result = Except.error ScriptError.fileAccessError ∧
    ∀ c, Event.runCommand c ∉ (runScript base w).trace := by
  rw [runScript_noWrite base w s hr hw]
  exact ⟨rfl, fun c => List.not_mem_nil _⟩

/-- C7, witness: the claim in the concrete unwritable world `mkWorldRO []`. -/
theorem claim7_witness :
    (mkWorldRO []).fileContents (readmePath []) = some [] ∧
    (mkWorldRO []).writable (outPath []) = false ∧
    ((runScript [] (mkWorldRO [])).result = Except.error ScriptError.fileAccessError ∧
     ∀ c, Event.runCommand c ∉ (runScript [] (mkWorldRO [])).trace) :=
  ⟨rfl, rfl, claim7 [] (mkWorldRO []) [] rfl rfl⟩

/-- C8: for every README text, the generated module is exactly a fixed
prefix ending with the second block's `{-|`, then one newline, the extracted
segment, one newline, then a fixed suffix starting with `-}` — so the text
the template puts between the delimiters is the segment with exactly one
newline prepended and one appended, never the segment alone. -/
theorem claim8 (s : List Char) :
    generatedModule s = docPre ++ ('\n' :: (examples s ++ ['\n'])) ++ docSuf ∧
    endsWith openPat docPre = true ∧
    startsWith closePat docSuf = true ∧
    '\n' :: (examples s ++ ['\n']) ≠ examples s := by
  refine ⟨?_, by decide, by decide, ?_⟩
  · have hh : elmHeader = docPre ++ ['\n'] := by decide
    have hf : elmFooter = '\n' :: docSuf := by decide
    rw [generatedModule, elm_src, hh, hf]
    simp [List.append_assoc]
  · intro h
    have hlen := congrArg List.length h
    simp [List.length_append, List.length_cons] at hlen
    omega

/-- C9: the generated module text depends only on the suffix of the README
after the first occurrence of the marker: any two READMEs with the same
such suffix (in particular, READMEs differing only before the first marker)
produce identical module texts. -/
theorem claim9 (s₁ s₂ : List Char)
    (h : firstMarkerSuffix s₁ = firstMarkerSuffix s₂) :
    generatedModule s₁ = generatedModule s₂ := by
  rw [generatedModule, generatedModule, examples_eq_firstMarkerSuffix,
    examples_eq_firstMarkerSuffix, h]

/-- C9, witness: two READMEs differing only in their preambles before the
marker produce identical generated modules. -/
theorem claim9_witness :
    firstMarkerSuffix (("A## ExamplesZ").data)
      = firstMarkerSuffix (("BB## ExamplesZ").data) ∧
    generatedModule (("A## ExamplesZ").data)
      = generatedModule (("BB## ExamplesZ").data) :=
  ⟨by decide, claim9 (("A## ExamplesZ").data) (("BB## ExamplesZ").data) (by decide)⟩

/-- C10: on a successful run the script performs exactly one file write,
targeting the fixed output path `src/Examples.elm` under the base directory;
that path differs from the README's path, and the content of every other
path is left unchanged by the run's trace. -/
theorem claim10 (base : List Char) (w : World) (s : List Char)
    (hr : w.fileContents (readmePath base) = some s)
    (hw : w.writable (outPath base) = true) :
    (runScript base w).trace.filter isWriteEvent
      = [Event.writeFile (outPath base) (generatedModule s)] ∧
    outPath base ≠ readmePath base ∧
    (∀ q, q ≠ outPath base →
      (applyTrace w (runScript base w).trace).fileContents q = w.fileContents q) := by
  rw [runScript_ok base w s hr hw]
  refine ⟨by simp [List.filter, isWriteEvent, generatedModule],
    outPath_ne_readmePath base, ?_⟩
  intro q hq
  simp only [applyTrace, List.foldl, applyEvent]
  rw [if_neg hq]

/-- C10, witness: the frame property at the concrete world `mkWorld []`. -/
theorem claim10_witness :
    (mkWorld []).fileContents (readmePath []) = some [] ∧
    (mkWorld []).writable (outPath []) = true ∧
    ((runScript [] (mkWorld [])).trace.filter isWriteEvent
       = [Event.writeFile (outPath []) (generatedModule [])] ∧
     outPath [] ≠ readmePath [] ∧
     (∀ q, q ≠ outPath [] →
       (applyTrace (mkWorld []) (runScript [] (mkWorld [])).trace).fileContents q
         = (mkWorld []).fileContents q)) :=
  ⟨rfl, rfl, claim10 [] (mkWorld []) [] rfl rfl⟩

end ElmHour
